import Mathlib

/-!
Verification of the nano-banana-2 CLI's background-removal pipeline
(`src/cli.ts`) against its natural-language specification.

The TypeScript source is shallowly embedded: pure string manipulation
(`detectKeyColor`'s histogram parsing, `loadEnvFile`'s line handling,
`parseArgs`'s flag loop, the path arithmetic of `removeBackground`) is
translated to executable Lean functions on `String` / `List Char`; the
effectful pipeline (`removeBackground` and the transparent-mode loop of
`main`) is translated to explicit state passing, with each external
subprocess invocation (magick, ffmpeg) represented by its `Except`
outcome and the on-disk files by a `List String` of paths.  JavaScript
machine-number arithmetic never matters for the properties below (all
counts are small naturals), so counts are `Nat`.

The unmix / despill per-pixel formulas execute inside FFmpeg and the
earlier ImageMagick pipeline, whose implementations are not part of this
repository's sources; they are modelled from the spec (and the formulas
quoted in the repository's own documentation), over `ℚ`.
-/

namespace NanoBanana

/-! ## Per-pixel algebra: unmix and despill -/

/-- Modelled from the spec: the unmix stage runs inside the external
raster backend and its implementation is not under `src/`; the spec
(§4.4) and the repository documentation (`part_000`, line 143) give the
per-channel formula `v==0 ? 0 : u/v - KEY/v + KEY`, i.e.
`true = (observed - (1-alpha)*key) / alpha` with an explicit guard that
an `alpha = 0` pixel is fully transparent (output channel 0), never a
division by zero. Channels and alpha are modelled over `ℚ`. -/
def unmix (u v key : ℚ) : ℚ :=
  if v = 0 then 0 else u / v - key / v + key

/-- An RGB pixel with rational channels. -/
@[ext] structure RGB where
  r : ℚ
  g : ℚ
  b : ℚ
  deriving Repr, DecidableEq

/-- Modelled from the spec: the despill clamp runs inside FFmpeg
(`despill=green`, `src/cli.ts` line 313) and is not under `src/`; the
spec (§4.4) and the repository documentation (`part_000`, line 144) give
the green-channel limiter `g > (r+b)/2 ? (r+b)/2 : g`, i.e.
`channel = min(channel, (otherA + otherB) / 2)`. -/
def clampChannel (c avg : ℚ) : ℚ :=
  if c > avg then avg else c

/-- Modelled from the spec: despill generalized to whichever channel the
key color is dominant in (§4.4): clamp that channel to the average of
the other two. -/
def despill (dominant : Fin 3) (p : RGB) : RGB :=
  match dominant with
  | 0 => { p with r := clampChannel p.r ((p.g + p.b) / 2) }
  | 1 => { p with g := clampChannel p.g ((p.r + p.b) / 2) }
  | 2 => { p with b := clampChannel p.b ((p.r + p.g) / 2) }

/-- C7: unmix is self-inverse under the compositing equation: for alpha
`a > 0`, unmixing the synthetic observed pixel `a*F + (1-a)*K` with the
same `a` and `K` recovers `F` exactly (over `ℚ`, hence within rounding
tolerance for machine numbers), and an `alpha = 0` pixel is explicitly
guarded: the output channel is the constant 0, not a division by zero. -/
theorem unmix_self_inverse (F K a : ℚ) :
    (0 < a → unmix (a * F + (1 - a) * K) a K = F) ∧ unmix F 0 K = 0 := by
  constructor
  · intro ha
    have hne : a ≠ 0 := ne_of_gt ha
    unfold unmix
    rw [if_neg hne]
    field_simp
    ring
  · unfold unmix
    rw [if_pos rfl]

/-- Witness for C7 at concrete values `F = 10`, `K = 250`, `a = 1/2`. -/
theorem unmix_self_inverse_witness :
    unmix ((1/2 : ℚ) * 10 + (1 - 1/2) * 250) (1/2) 250 = 10 :=
  (unmix_self_inverse 10 250 (1/2)).1 (by norm_num)

/-- C8: despill is idempotent: applying the dominant-channel clamp
twice yields the same pixel as applying it once, for every pixel and
every dominant channel. -/
theorem despill_idempotent (dominant : Fin 3) (p : RGB) :
    despill dominant (despill dominant p) = despill dominant p := by
  fin_cases dominant <;>
    · simp only [despill, clampChannel]
      split_ifs <;> rfl

/-! ## JavaScript-style string primitives

The CLI manipulates strings with JavaScript's `split`, `trim`,
`lastIndexOf`, `substring` and regular expressions.  These are embedded
as executable functions on `List Char` (a JS string is a sequence of
characters; all inputs of interest are ASCII). -/

/-- JS `\s` / `trim` whitespace, restricted to the ASCII whitespace
characters (JS additionally trims some Unicode spaces, which never occur
in the inputs handled here). -/
def isSpaceJS (c : Char) : Bool :=
  c = ' ' ∨ c = '\t' ∨ c = '\n' ∨ c = '\r' ∨ c = '\x0b' ∨ c = '\x0c'

/-- JS `String.prototype.trim` on char lists. -/
def trimJS (l : List Char) : List Char :=
  ((l.dropWhile isSpaceJS).reverse.dropWhile isSpaceJS).reverse

/-- JS `String.prototype.split` with a single-character separator:
`"a=b=c".split("=") = ["a","b","c"]`, `"".split("=") = [""]`. -/
def splitOnChar (c : Char) : List Char → List (List Char)
  | [] => [[]]
  | a :: rest =>
    let r := splitOnChar c rest
    if a = c then [] :: r
    else
      match r with
      | h :: t => (a :: h) :: t
      | [] => [[a]]

/-- JS `Array.prototype.join` with a single-character separator. -/
def joinWithChar (c : Char) : List (List Char) → List Char
  | [] => []
  | [x] => x
  | x :: y :: rest => x ++ c :: joinWithChar c (y :: rest)

/-- Index of the last occurrence of `c` (JS `lastIndexOf`, as an
`Option` instead of `-1`). -/
def lastIdxOf (c : Char) : List Char → Option Nat
  | [] => none
  | a :: rest =>
    match lastIdxOf c rest with
    | some i => some (i + 1)
    | none => if a = c then some 0 else none

/-! ## Environment loading (`loadEnvFile`, `src/cli.ts` lines 30-51)

`loadEnvFile` reads a `.env` file (absent file: no-op), splits it into
lines, and for each non-empty non-comment line `KEY=VALUE` assigns
`process.env[KEY] = VALUE` only when `key && value && !process.env[key]`
— i.e. when the parsed key and quote-stripped value are non-empty and
the current entry is *falsy* (unset **or the empty string**).  The
process environment is modelled as `String → Option String`. -/

/-- JS truthiness of a `process.env` entry: `undefined` and `""` are
falsy, every other string is truthy. -/
def truthy (v : Option String) : Bool :=
  match v with
  | none => false
  | some s => decide (s ≠ "")

/-- The `.replace(/^["']|["']$/g, "")` of `loadEnvFile`: removes one
leading and one trailing quote character (`"` or `'`, codepoint 39). -/
def stripQuotes (l : List Char) : List Char :=
  let l1 :=
    match l with
    | [] => []
    | c :: rest => if c = '"' ∨ c.toNat = 39 then rest else l
  match l1.reverse with
  | [] => l1
  | c :: rest => if c = '"' ∨ c.toNat = 39 then rest.reverse else l1

/-- One iteration of `loadEnvFile`'s line loop (`src/cli.ts` 33-41):
`key` is the text before the first `=`, `value` the rest re-joined on
`=` and quote-stripped; the assignment happens only when `key && value
&& !process.env[key]`. -/
def procLine (env : String → Option String) (line : List Char) :
    String → Option String :=
  match trimJS line with
  | [] => env
  | c :: rest =>
    if c = '#' then env
    else
      match splitOnChar '=' (c :: rest) with
      | [] => env
      | keyChars :: valueParts =>
        if String.mk keyChars ≠ "" ∧
            String.mk (stripQuotes (joinWithChar '=' valueParts)) ≠ "" ∧
            truthy (env (String.mk keyChars)) = false then
          fun k =>
            if k = String.mk keyChars
            then some (String.mk (stripQuotes (joinWithChar '=' valueParts)))
            else env k
        else env

/-- `loadEnvFile` (`src/cli.ts` 30-43): a missing file (`content = none`,
the `existsSync` guard) leaves the environment unchanged; otherwise each
line is processed in order. -/
def loadEnvFileM (content : Option String) (env : String → Option String) :
    String → Option String :=
  match content with
  | none => env
  | some c => (splitOnChar '\n' c.data).foldl procLine env

/-- A line never changes a key currently bound to a non-empty value. -/
theorem procLine_preserves_truthy (env : String → Option String)
    (line : List Char) (k : String) (v : String)
    (hk : env k = some v) (hv : v ≠ "") : procLine env line k = some v := by
  unfold procLine
  cases htrim : trimJS line with
  | nil => exact hk
  | cons c rest =>
    dsimp only
    by_cases hc : c = '#'
    · rw [if_pos hc]
      exact hk
    · rw [if_neg hc]
      cases hsplit : splitOnChar '=' (c :: rest) with
      | nil => exact hk
      | cons keyChars valueParts =>
        dsimp only
        split_ifs with hcond
        · by_cases hkk : k = String.mk keyChars
          · exfalso
            have ht : truthy (env k) = true := by
              rw [hk]
              simp [truthy, hv]
            rw [hkk, hcond.2.2] at ht
            exact Bool.false_ne_true ht
          · simpa [hkk] using hk
        · exact hk

/-- The (amended) C10 statement: a key that is bound to a **non-empty**
value before `loadEnvFile` runs is never reassigned, so among the
`.env` locations loaded in sequence the earliest-loaded file wins per
key and no later file overrides an externally-set non-empty value. -/
theorem loadEnvFile_preserves_nonempty (content : Option String)
    (env : String → Option String) (k v : String)
    (hk : env k = some v) (hv : v ≠ "") :
    loadEnvFileM content env k = some v := by
  cases content with
  | none => exact hk
  | some c =>
    show (splitOnChar '\n' c.data).foldl procLine env k = some v
    generalize splitOnChar '\n' c.data = lines
    induction lines generalizing env with
    | nil => exact hk
    | cons line rest ih =>
      exact ih (procLine env line) (procLine_preserves_truthy env line k v hk hv)

/-- Witness for the amended C10: an externally-set `GEMINI_API_KEY`
survives loading a `.env` file that redefines it. -/
theorem loadEnvFile_preserves_nonempty_witness :
    loadEnvFileM (some "GEMINI_API_KEY=filevalue")
      (fun k => if k = "GEMINI_API_KEY" then some "external" else none)
      "GEMINI_API_KEY" = some "external" :=
  loadEnvFile_preserves_nonempty (some "GEMINI_API_KEY=filevalue")
    (fun k => if k = "GEMINI_API_KEY" then some "external" else none)
    "GEMINI_API_KEY" "external" (by decide) (by decide)

/-- Counterexample to C10 as stated: a variable already *set* in the
process environment — but set to the empty string — is **not** left
unchanged: `!process.env[key]` is true for `""`, so the `.env` file
overwrites it. -/
theorem loadEnvFile_overwrites_empty_preset :
    (fun k => if k = "GEMINI_API_KEY" then some "" else none :
        String → Option String) "GEMINI_API_KEY" = some "" ∧
    loadEnvFileM (some "GEMINI_API_KEY=secret")
      (fun k => if k = "GEMINI_API_KEY" then some "" else none)
      "GEMINI_API_KEY" = some "secret" := by
  constructor
  · decide
  · decide

/-! ## Key-color detection (`detectKeyColor`, `src/cli.ts` lines 262-289)

`detectKeyColor` runs `magick <input> -crop 4x4+0+0 +repage -format %c
histogram:info:-` (a histogram of the top-left 4×4 patch), then scans
the output lines: a line contributes iff it matches both
`/^\s*(\d+):/` (its count) and `/#([0-9A-Fa-f]{6})/` (its color), and
the line with the strictly highest count wins, starting from the
fallback `(0, "00FF00")`.  A failure of the `magick` invocation itself
rejects the promise, so the `await` rethrows: this is modelled by
`detectKeyColorM` mapping an `Except.error` input to the same error. -/

/-- The argument list of the `magick` invocation in `detectKeyColor`. -/
def detectKeyColorArgs (inputPath : String) : List String :=
  [inputPath, "-crop", "4x4+0+0", "+repage", "-format", "%c",
   "histogram:info:-"]

/-- A hexadecimal digit (`[0-9A-Fa-f]`). -/
def isHexDigit (c : Char) : Bool :=
  c.isDigit ∨ ('a' ≤ c ∧ c ≤ 'f') ∨ ('A' ≤ c ∧ c ≤ 'F')

/-- Decimal digits to a natural number (JS `parseInt(_, 10)`; the
counts of a 4×4 histogram are far below any precision limit). -/
def digitsToNat (l : List Char) : Nat :=
  l.foldl (fun n c => 10 * n + (c.toNat - '0'.toNat)) 0

/-- The regex `/^\s*(\d+):/`: optional leading whitespace, at least one
digit, then a colon; yields the parsed count. -/
def parseCount (l : List Char) : Option Nat :=
  match (l.dropWhile isSpaceJS).takeWhile Char.isDigit with
  | [] => none
  | digits =>
    match ((l.dropWhile isSpaceJS).dropWhile Char.isDigit) with
    | ':' :: _ => some (digitsToNat digits)
    | _ => none

/-- The regex `/#([0-9A-Fa-f]{6})/`: the first `#` followed by six hex
digits, anywhere in the line; yields the six digits (capture group 1,
without the `#` — the code later prefixes `#`/`0x` itself). -/
def findHex : List Char → Option (List Char)
  | [] => none
  | '#' :: rest =>
    if 6 ≤ rest.length ∧ (rest.take 6).all isHexDigit
    then some (rest.take 6)
    else findHex rest
  | _ :: rest => findHex rest

/-- A histogram line parses iff both regexes match
(`if (countMatch && hexMatch)`). -/
def parseHistLine (l : List Char) : Option (Nat × String) :=
  match parseCount l, findHex l with
  | some n, some hex => some (n, String.mk hex)
  | _, _ => none

/-- The scan state update of `detectKeyColor`'s loop: a parsed line
replaces the current best iff its count is strictly greater. -/
def bestStep (best : Nat × String) (line : List Char) : Nat × String :=
  match parseHistLine line with
  | none => best
  | some (c, col) => if best.1 < c then (c, col) else best

/-- The full scan over the histogram lines, starting from
`bestCount = 0`, `bestColor = "00FF00"` (fallback pure green). -/
def histogramBest (lines : List (List Char)) : Nat × String :=
  lines.foldl bestStep (0, "00FF00")

/-- `detectKeyColor` as a function of the outcome of its `magick`
invocation: a resolved invocation yields the scan result over the
output's lines; a rejected invocation rethrows (`await` of a rejected
promise). -/
def detectKeyColorM (res : Except String String) : Except String String :=
  match res with
  | .error e => .error e
  | .ok raw => .ok (histogramBest (splitOnChar '\n' raw.data)).2

/-- The scan result's count only grows along the fold. -/
theorem bestStep_fold_le (lines : List (List Char)) (best : Nat × String) :
    best.1 ≤ (lines.foldl bestStep best).1 := by
  induction lines generalizing best with
  | nil => exact le_refl _
  | cons line rest ih =>
    refine le_trans ?_ (ih (bestStep best line))
    unfold bestStep
    cases parseHistLine line with
    | none => exact le_refl _
    | some p =>
      dsimp only
      split_ifs with h
      · exact le_of_lt h
      · exact le_refl _

/-- Every parseable line's count is bounded by the final scan count. -/
theorem bestStep_fold_max (lines : List (List Char)) (best : Nat × String)
    (l : List Char) (p : Nat × String)
    (hl : l ∈ lines) (hp : parseHistLine l = some p) :
    p.1 ≤ (lines.foldl bestStep best).1 := by
  induction lines generalizing best with
  | nil => cases hl
  | cons line rest ih =>
    rcases List.mem_cons.mp hl with rfl | hmem
    · refine le_trans ?_ (bestStep_fold_le rest (bestStep best l))
      unfold bestStep
      rw [hp]
      dsimp only
      split_ifs with h
      · exact le_refl _
      · exact Nat.le_of_not_lt h
    · exact ih (bestStep best line) hmem

/-- C5: detection restricts to the top-left 4×4 corner patch, and the
histogram scan returns a color whose count is greater than or equal to
every parseable line's count; on the histogram of a uniform `#0BF20A`
patch it returns exactly `0BF20A`, not the `00FF00` default. -/
theorem detectKeyColor_histogram_max (inputPath : String)
    (lines : List (List Char)) (l : List Char) (p : Nat × String)
    (hl : l ∈ lines) (hp : parseHistLine l = some p) :
    p.1 ≤ (histogramBest lines).1 ∧
    "4x4+0+0" ∈ detectKeyColorArgs inputPath ∧
    histogramBest
      ["     16: ( 11,242, 10) #0BF20A srgb(11,242,10)".data] =
      (16, "0BF20A") := by
  refine ⟨bestStep_fold_max lines (0, "00FF00") l p hl hp, ?_, ?_⟩
  · unfold detectKeyColorArgs
    simp
  · decide

/-- Witness for C5 on the uniform near-green histogram itself. -/
theorem detectKeyColor_histogram_max_witness :
    (16 : Nat) ≤
      (histogramBest
        ["     16: ( 11,242, 10) #0BF20A srgb(11,242,10)".data]).1 :=
  (detectKeyColor_histogram_max "in.png"
    ["     16: ( 11,242, 10) #0BF20A srgb(11,242,10)".data]
    "     16: ( 11,242, 10) #0BF20A srgb(11,242,10)".data
    (16, "0BF20A") (by decide) (by decide)).1

/-- Counterexample to C2 as stated: the sampler *does* fail outward
when the `magick` invocation itself fails (binary missing or non-zero
exit): the rejection is rethrown by the `await`, so the caller receives
an error, not a key color. -/
theorem detectKeyColor_error_propagates :
    detectKeyColorM
        (Except.error "Failed to run magick: spawn magick ENOENT. Is it installed?") =
      Except.error "Failed to run magick: spawn magick ENOENT. Is it installed?" :=
  rfl

/-- The (amended) C2 statement: when the `magick` histogram invocation
succeeds, detection never fails: it always returns a concrete color,
and `00FF00` (pure green) when no histogram line is parseable; a
failure of the invocation itself, however, propagates as an error to
`removeBackground`'s catch handler. -/
theorem detectKeyColor_ok_total (raw : String) :
    ∃ c, detectKeyColorM (Except.ok raw) = Except.ok c ∧
      ((∀ l ∈ splitOnChar '\n' raw.data, parseHistLine l = none) →
        c = "00FF00") := by
  refine ⟨(histogramBest (splitOnChar '\n' raw.data)).2, rfl, ?_⟩
  intro hnone
  unfold histogramBest
  generalize hls : splitOnChar '\n' raw.data = ls at hnone
  clear hls
  induction ls with
  | nil => rfl
  | cons line rest ih =>
    have h0 : parseHistLine line = none := hnone line (List.mem_cons_self _ _)
    have : bestStep (0, "00FF00") line = (0, "00FF00") := by
      unfold bestStep
      rw [h0]
    rw [List.foldl_cons, this]
    exact ih (fun l hl => hnone l (List.mem_cons_of_mem _ hl))

/-- Witness for the amended C2 on magick output with no parseable
histogram line. -/
theorem detectKeyColor_ok_total_witness :
    detectKeyColorM (Except.ok "no colors here") = Except.ok "00FF00" := by
  obtain ⟨c, hc, hdef⟩ := detectKeyColor_ok_total "no colors here"
  rw [hc, hdef (by decide)]

/-! ## Path arithmetic of `removeBackground` (`src/cli.ts` lines 291-296)

`removeBackground` computes
`dir = inputPath.substring(0, inputPath.lastIndexOf("/"))`,
`name = basename(inputPath, extname(inputPath))`,
`outputPath = join(dir, name + ".png")` and
`tempKeyed = join(dir, name + "_keyed.png")`.
`substring` clamps a `-1` end to `0`; node's `extname`/`basename`/`join`
are embedded below (`join`'s normalization is modelled as collapsing
duplicate slashes; resolution of `.`/`..` segments never arises in the
theorems, whose hypotheses exclude dot characters in the directory
part). -/

/-- `inputPath.substring(0, inputPath.lastIndexOf("/"))`: everything
before the last slash; the empty string when there is no slash
(`substring(0, -1)` clamps to `substring(0, 0)`). -/
def jsDirOf (p : String) : String :=
  match lastIdxOf '/' p.data with
  | none => ""
  | some i => String.mk (p.data.take i)

/-- The part of a path after its last slash (node's base segment). -/
def afterLastSlash (cs : List Char) : List Char :=
  match lastIdxOf '/' cs with
  | none => cs
  | some i => cs.drop (i + 1)

/-- node `path.extname`: the suffix of the base segment from its last
dot, except that a dot in first position (hidden files like `.png`) or
a base of exactly `..` yields the empty extension. -/
def nodeExtname (p : String) : String :=
  match lastIdxOf '.' (afterLastSlash p.data) with
  | none => ""
  | some i =>
    if i = 0 ∨ afterLastSlash p.data = ['.', '.'] then ""
    else String.mk ((afterLastSlash p.data).drop i)

/-- node `path.basename(p, ext)`: the base segment, with `ext` stripped
when the segment strictly ends with it (node keeps the segment whole
when it *equals* the extension). -/
def nodeBasename (p ext : String) : String :=
  let base := afterLastSlash p.data
  if ext.data.length < base.length ∧
      base.drop (base.length - ext.data.length) = ext.data
  then String.mk (base.take (base.length - ext.data.length))
  else String.mk base

/-- Collapse runs of consecutive slashes to a single slash (the part of
node `path.normalize` exercised by `path.join` here). -/
def collapseSlashes : List Char → List Char
  | [] => []
  | [c] => [c]
  | a :: b :: rest =>
    if a = '/' ∧ b = '/' then collapseSlashes (b :: rest)
    else a :: collapseSlashes (b :: rest)

/-- node `path.join(a, b)`: empty parts are skipped, the remaining
parts are joined with `/` and the result normalized. -/
def nodeJoin2 (a b : String) : String :=
  if a = "" then b
  else if b = "" then a
  else String.mk (collapseSlashes (a.data ++ '/' :: b.data))

/-- The `outputPath` computed by `removeBackground` (`src/cli.ts` 294). -/
def removeBackgroundOutputPath (p : String) : String :=
  nodeJoin2 (jsDirOf p) (nodeBasename p (nodeExtname p) ++ ".png")

/-- The `tempKeyed` intermediate path computed by `removeBackground`
(`src/cli.ts` 295). -/
def removeBackgroundTempPath (p : String) : String :=
  nodeJoin2 (jsDirOf p) (nodeBasename p (nodeExtname p) ++ "_keyed.png")

/-! ## The `removeBackground` pipeline (`src/cli.ts` lines 291-339)

The pipeline is `detectKeyColor` (magick histogram), then ffmpeg
`colorkey` + `despill` into `tempKeyed`, then magick `-trim` into
`outputPath`, inside a `try` whose `catch` (and whose success path)
first runs `cleanup()` — `unlink(tempKeyed).catch(() => {})` — before
returning or rethrowing; an error message mentioning a missing ffmpeg
is remapped to an actionable message.  Each subprocess is represented
by its `Except` outcome and the disk by the list of existing paths. -/

/-- The `-vf` filter argument of the ffmpeg invocation (`src/cli.ts`
313): similarity `0.25` and blend `0.08` are hardcoded, and the despill
channel is always `green` — there is no tolerance or key-color
parameter. -/
def ffmpegVfArg (keyColor : String) : String :=
  "colorkey=0x" ++ keyColor ++ ":0.25:0.08,despill=green"

/-- The full ffmpeg argument list (`src/cli.ts` 311-315). -/
def ffmpegArgs (inputPath keyColor tempKeyed : String) : List String :=
  ["-y", "-i", inputPath, "-vf", ffmpegVfArg keyColor, tempKeyed]

/-- File creation on the modelled disk. -/
def createFS (fs : List String) (p : String) : List String := p :: fs

/-- `unlink(p).catch(() => {})`: removes `p`, ignoring errors. -/
def unlinkFS (fs : List String) (p : String) : List String :=
  fs.filter (fun q => q != p)

/-- JS `String.prototype.includes` on char lists. -/
def hasSubstr : List Char → List Char → Bool
  | sub, [] => sub.isPrefixOf []
  | sub, c :: t => sub.isPrefixOf (c :: t) || hasSubstr sub t

/-- The catch handler's message remap (`src/cli.ts` 331-337): a message
containing `Failed to run ffmpeg` or `ENOENT` becomes the install hint;
every other error is rethrown unchanged. -/
def remapErr (msg : String) : String :=
  if hasSubstr "Failed to run ffmpeg".data msg.data ||
      hasSubstr "ENOENT".data msg.data
  then "FFmpeg is required for transparent mode. Install: brew install ffmpeg"
  else msg

/-- One `removeBackground` invocation on `inputPath`, as a function of
the three subprocess outcomes (`detect` = magick histogram, `ffmpeg` =
colorkey+despill — `ffmpegWrote` says whether it left a partial
`tempKeyed` behind on failure —, `magickTrim` = final trim) and the
initial disk: returns the settled result together with the final disk
contents. -/
def removeBackgroundRun (inputPath : String) (detect : Except String String)
    (ffmpeg : Except String Unit) (ffmpegWrote : Bool)
    (magickTrim : Except String Unit) (fs0 : List String) :
    Except String String × List String :=
  match detect with
  | .error e => (.error (remapErr e), unlinkFS fs0 (removeBackgroundTempPath inputPath))
  | .ok _ =>
    match ffmpeg with
    | .error e =>
      (.error (remapErr e),
       unlinkFS (if ffmpegWrote
                 then createFS fs0 (removeBackgroundTempPath inputPath)
                 else fs0)
         (removeBackgroundTempPath inputPath))
    | .ok _ =>
      match magickTrim with
      | .error e =>
        (.error (remapErr e),
         unlinkFS (createFS fs0 (removeBackgroundTempPath inputPath))
           (removeBackgroundTempPath inputPath))
      | .ok _ =>
        (.ok (removeBackgroundOutputPath inputPath),
         unlinkFS
           (createFS (createFS fs0 (removeBackgroundTempPath inputPath))
             (removeBackgroundOutputPath inputPath))
           (removeBackgroundTempPath inputPath))

/-- C6: on every exit path of `removeBackground` — success, any failing
stage, a partial ffmpeg write — the intermediate `tempKeyed` file is
gone from the disk when the pipeline returns or rethrows, whatever was
on the disk before. -/
theorem removeBackground_cleans_tempKeyed (inputPath : String)
    (detect : Except String String) (ffmpeg : Except String Unit)
    (ffmpegWrote : Bool) (magickTrim : Except String Unit)
    (fs0 : List String) :
    removeBackgroundTempPath inputPath ∉
      (removeBackgroundRun inputPath detect ffmpeg ffmpegWrote magickTrim
        fs0).2 := by
  have hmem : ∀ fs : List String,
      removeBackgroundTempPath inputPath ∉
        unlinkFS fs (removeBackgroundTempPath inputPath) := by
    intro fs
    unfold unlinkFS
    simp [List.mem_filter]
  cases detect with
  | error e => exact hmem fs0
  | ok key =>
    cases ffmpeg with
    | error e => exact hmem _
    | ok u =>
      cases magickTrim with
      | error e => exact hmem _
      | ok u => exact hmem _

/-! ## The transparent-mode loop of `main` (`src/cli.ts` lines 649-667)

For each generated file the loop runs `removeBackground` inside a
`try`; on success the returned output path is collected, on *any*
failure the error is swallowed (a notice is printed) and the original
generated file is collected instead.  No exception escapes the loop and
every image contributes exactly one entry. -/

/-- The `try`/`catch` body of the loop: the processed path on success,
the original file on failure. -/
def processOne (r : Except String String) (f : String) : String :=
  match r with
  | .ok p => p
  | .error _ => f

/-- The whole transparent-mode loop, for an arbitrary per-file
`removeBackground` outcome. -/
def mainTransparentLoop (rb : String → Except String String)
    (files : List String) : List String :=
  files.map (fun f => processOne (rb f) f)

/-- C1: in transparent mode, whatever the subprocess outcomes of each
per-image `removeBackground` run (backend unavailable, any stage
failing, or success), the loop yields exactly one output file per
generated image, that image's entry is the keyed output on success and
the already-written original file on failure, and no error value
escapes (the loop is a total function into a list of paths; only input
errors, raised before this loop, abort the workflow). -/
theorem transparent_loop_total (detect : String → Except String String)
    (ffmpeg : String → Except String Unit) (ffmpegWrote : String → Bool)
    (magickTrim : String → Except String Unit)
    (fs : String → List String) (files : List String) (f : String)
    (hf : f ∈ files) :
    (mainTransparentLoop
        (fun g => (removeBackgroundRun g (detect g) (ffmpeg g)
          (ffmpegWrote g) (magickTrim g) (fs g)).1) files).length =
      files.length ∧
    processOne
        ((removeBackgroundRun f (detect f) (ffmpeg f) (ffmpegWrote f)
          (magickTrim f) (fs f)).1) f ∈
      mainTransparentLoop
        (fun g => (removeBackgroundRun g (detect g) (ffmpeg g)
          (ffmpegWrote g) (magickTrim g) (fs g)).1) files ∧
    ((removeBackgroundRun f (detect f) (ffmpeg f) (ffmpegWrote f)
        (magickTrim f) (fs f)).1 =
      Except.ok (removeBackgroundOutputPath f) ∨
     processOne
        ((removeBackgroundRun f (detect f) (ffmpeg f) (ffmpegWrote f)
          (magickTrim f) (fs f)).1) f = f) := by
  refine ⟨List.length_map _ _, List.mem_map_of_mem _ hf, ?_⟩
  cases hd : detect f with
  | error e => right; simp [removeBackgroundRun, hd, processOne]
  | ok key =>
    cases hff : ffmpeg f with
    | error e => right; simp [removeBackgroundRun, hd, hff, processOne]
    | ok u =>
      cases hm : magickTrim f with
      | error e => right; simp [removeBackgroundRun, hd, hff, hm, processOne]
      | ok u => left; simp [removeBackgroundRun, hd, hff, hm]

/-- Witness for C1: a single generated image whose ffmpeg invocation
fails still yields itself as the run's output entry. -/
theorem transparent_loop_total_witness :
    processOne
        ((removeBackgroundRun "gen.png" (Except.ok "00FF00")
          (Except.error "ffmpeg failed (exit 1): no such filter")
          false (Except.ok ()) []).1) "gen.png" ∈
      mainTransparentLoop
        (fun g => (removeBackgroundRun g (Except.ok "00FF00")
          (Except.error "ffmpeg failed (exit 1): no such filter")
          false (Except.ok ()) []).1) ["gen.png"] :=
  (transparent_loop_total (fun _ => Except.ok "00FF00")
    (fun _ => Except.error "ffmpeg failed (exit 1): no such filter")
    (fun _ => false) (fun _ => Except.ok ()) (fun _ => [])
    ["gen.png"] "gen.png" (by decide)).2.1

/-- C3's divergence, evaluated: when `removeBackground` fails for the
images of a transparent run, the loop's output list is the input list
itself — the original, still green-screen, non-transparent files.  No
fuzz/threshold transparency pass and no erosion is applied: the claimed
threshold+erode fallback does not exist in the code; the run only
prints a failure notice and keeps the unprocessed image. -/
theorem failed_removal_keeps_original (e : String) (files : List String) :
    mainTransparentLoop (fun _ => Except.error e) files = files := by
  unfold mainTransparentLoop
  induction files with
  | nil => rfl
  | cons f rest ih =>
    rw [List.map_cons, ih]
    rfl

/-! ## Argument parsing (`parseArgs`, `src/cli.ts` lines 345-476)

The flag loop walks `argv`; value-taking flags consume the next
argument (`args[++i]`, which is `undefined` past the end — modelled as
`none`); `-s`/`-a` validate against the constant lists and
`process.exit(1)` on a bad or missing value; `-m` applied to a missing
value crashes with a `TypeError` (`undefined.toLowerCase()`); a bare
argument that does not start with `-` becomes the prompt; an unknown
`-`-flag is silently skipped — there is **no** `--chroma` or `--fuzz`
branch.  After the loop, a missing prompt exits with code 1, and size
`512` on the pro model is downgraded to `1K`. -/

/-- JS `String.prototype.startsWith` for a single-character prefix. -/
def startsWithChar (c : Char) (s : String) : Bool :=
  match s.data with
  | [] => false
  | a :: _ => a = c

/-- `VALID_SIZES` (`src/cli.ts` 66). -/
def VALID_SIZES : List String := ["512", "1K", "2K", "4K"]

/-- `VALID_ASPECTS` (`src/cli.ts` 69-72). -/
def VALID_ASPECTS : List String :=
  ["1:1", "16:9", "9:16", "4:3", "3:4", "3:2", "2:3",
   "4:5", "5:4", "21:9", "1:4", "1:8", "4:1", "8:1"]

/-- `MODEL_ALIASES` (`src/cli.ts` 57-62). -/
def MODEL_ALIASES : List (String × String) :=
  [("flash", "gemini-3.1-flash-image-preview"),
   ("nb2", "gemini-3.1-flash-image-preview"),
   ("pro", "gemini-3-pro-image-preview"),
   ("nb-pro", "gemini-3-pro-image-preview")]

/-- `DEFAULT_MODEL` (`src/cli.ts` 64). -/
def DEFAULT_MODEL : String := "gemini-3.1-flash-image-preview"

/-- `resolveModel` (`src/cli.ts` 170-172). -/
def resolveModel (input : String) : String :=
  match MODEL_ALIASES.lookup input.toLower with
  | some m => m
  | none => input

/-- The `Options` record (`src/cli.ts` 84-94); fields a value-taking
flag can set to `undefined` (by consuming a missing argument) are
`Option`s. -/
structure OptionsM where
  prompt : String
  output : Option String
  size : String
  outputDir : Option String
  referenceImages : List (Option String)
  transparent : Bool
  apiKey : Option String
  model : String
  aspectRatio : Option String
  deriving Repr, DecidableEq

/-- The possible outcomes of `parseArgs`: explicit `process.exit`, an
uncaught `TypeError` (crash), the `--costs` mode, or parsed options. -/
inductive ParseOutcome where
  | exited (code : Nat)
  | typeErr
  | costs
  | ok (o : OptionsM)
  deriving Repr, DecidableEq

/-- The `while` loop of `parseArgs` (`src/cli.ts` 426-462). -/
def parseLoop : List String → OptionsM → ParseOutcome
  | [], o =>
    if o.prompt = "" then .exited 1
    else if o.size = "512" ∧ o.model = "gemini-3-pro-image-preview" then
      .ok { o with size := "1K" }
    else .ok o
  | arg :: rest, o =>
    if arg = "-o" ∨ arg = "--output" then
      match rest with
      | v :: rest2 => parseLoop rest2 { o with output := some v }
      | [] => parseLoop [] { o with output := none }
    else if arg = "-s" ∨ arg = "--size" then
      match rest with
      | v :: rest2 =>
        if VALID_SIZES.contains v then parseLoop rest2 { o with size := v }
        else .exited 1
      | [] => .exited 1
    else if arg = "-a" ∨ arg = "--aspect" then
      match rest with
      | v :: rest2 =>
        if VALID_ASPECTS.contains v then
          parseLoop rest2 { o with aspectRatio := some v }
        else .exited 1
      | [] => .exited 1
    else if arg = "-m" ∨ arg = "--model" then
      match rest with
      | v :: rest2 => parseLoop rest2 { o with model := resolveModel v }
      | [] => .typeErr
    else if arg = "-d" ∨ arg = "--dir" then
      match rest with
      | v :: rest2 => parseLoop rest2 { o with outputDir := some v }
      | [] => parseLoop [] { o with outputDir := none }
    else if arg = "-r" ∨ arg = "--ref" then
      match rest with
      | v :: rest2 =>
        parseLoop rest2
          { o with referenceImages := o.referenceImages ++ [some v] }
      | [] =>
        parseLoop [] { o with referenceImages := o.referenceImages ++ [none] }
    else if arg = "-t" ∨ arg = "--transparent" then
      parseLoop rest { o with transparent := true }
    else if arg = "--api-key" then
      match rest with
      | v :: rest2 => parseLoop rest2 { o with apiKey := some v }
      | [] => parseLoop [] { o with apiKey := none }
    else if ¬ startsWithChar '-' arg then
      parseLoop rest { o with prompt := arg }
    else
      parseLoop rest o

/-- `parseArgs` (`src/cli.ts` 345-476), parametrized by `Date.now()`
and `process.cwd()` (which seed the defaults). -/
def parseArgsM (now cwd : String) (args : List String) : ParseOutcome :=
  match args with
  | [] => .exited 0
  | a0 :: _ =>
    if a0 = "--help" ∨ a0 = "-h" then .exited 0
    else if a0 = "--costs" then .costs
    else
      parseLoop args
        { prompt := ""
          output := some ("nano-gen-" ++ now)
          size := "1K"
          outputDir := some cwd
          referenceImages := []
          transparent := false
          apiKey := none
          model := DEFAULT_MODEL
          aspectRatio := none }

/-- C4's divergence, evaluated: the CLI accepts no key-color or
tolerance input.  On `nano-banana "robot" -t --chroma "#0BF20A" --fuzz
20` (the flags the repository's own SKILL.md documents), `--chroma` and
`--fuzz` are silently skipped and their *values* are parsed as
positional prompts — the final prompt is `"20"`, the requested key
color and tolerance are dropped — and the keying run is configured with
the auto-detected color and the hardcoded `0.25:0.08` similarity/blend
constants of the ffmpeg filter string. -/
theorem parseArgs_ignores_chroma_and_fuzz :
    parseArgsM "1700000000000" "/work"
        ["robot", "-t", "--chroma", "#0BF20A", "--fuzz", "20"] =
      ParseOutcome.ok
        { prompt := "20"
          output := some "nano-gen-1700000000000"
          size := "1K"
          outputDir := some "/work"
          referenceImages := []
          transparent := true
          apiKey := none
          model := "gemini-3.1-flash-image-preview"
          aspectRatio := none } ∧
    ffmpegVfArg "0BF20A" = "colorkey=0x0BF20A:0.25:0.08,despill=green" := by
  constructor
  · decide
  · rfl

/-! ## In-place overwrite of `.png` inputs (C9)

For a well-formed input path `d/s.png`, `removeBackground`'s computed
`outputPath` is the input path itself (the trimmed RGBA result
overwrites the original in place) and its only intermediate file is
`d/s_keyed.png`; a root-level input such as `/a.png`, whose directory
part is the empty string, is the exception — `join` drops the leading
slash. -/

/-- No occurrence means no last index. -/
theorem lastIdxOf_eq_none (c : Char) (l : List Char) (h : c ∉ l) :
    lastIdxOf c l = none := by
  induction l with
  | nil => rfl
  | cons a rest ih =>
    have hne : ¬ a = c := by
      intro hac
      subst hac
      exact h (List.mem_cons_self _ _)
    unfold lastIdxOf
    rw [ih (fun hm => h (List.mem_cons_of_mem _ hm))]
    dsimp only
    rw [if_neg hne]

/-- The last occurrence of `c` in `xs ++ c :: t` with `c ∉ t` sits at
index `xs.length`. -/
theorem lastIdxOf_append_cons (c : Char) (xs t : List Char) (h : c ∉ t) :
    lastIdxOf c (xs ++ c :: t) = some xs.length := by
  induction xs with
  | nil =>
    show lastIdxOf c (c :: t) = some 0
    unfold lastIdxOf
    rw [lastIdxOf_eq_none c t h]
    dsimp only
    rw [if_pos rfl]
  | cons a xs ih =>
    show lastIdxOf c (a :: (xs ++ c :: t)) = some (xs.length + 1)
    unfold lastIdxOf
    rw [ih]

/-- A consecutive-slash-free list (the inputs on which `collapseSlashes`
is the identity). -/
def adjSlashFree : List Char → Bool
  | [] => true
  | [_] => true
  | a :: b :: rest =>
    if a = '/' ∧ b = '/' then false else adjSlashFree (b :: rest)

/-- `collapseSlashes` is the identity on consecutive-slash-free lists. -/
theorem collapseSlashes_of_adjFree (l : List Char)
    (h : adjSlashFree l = true) : collapseSlashes l = l := by
  induction l with
  | nil => rfl
  | cons a rest ih =>
    cases rest with
    | nil => rfl
    | cons b r =>
      by_cases hab : a = '/' ∧ b = '/'
      · exfalso
        unfold adjSlashFree at h
        rw [if_pos hab] at h
        exact Bool.false_ne_true h
      · have h2 : adjSlashFree (b :: r) = true := by
          unfold adjSlashFree at h
          rwa [if_neg hab] at h
        show collapseSlashes (a :: b :: r) = a :: b :: r
        unfold collapseSlashes
        rw [if_neg hab, ih h2]

/-- A slash-free list is consecutive-slash-free. -/
theorem adjSlashFree_of_not_mem (l : List Char) (h : '/' ∉ l) :
    adjSlashFree l = true := by
  induction l with
  | nil => rfl
  | cons a rest ih =>
    cases rest with
    | nil => rfl
    | cons b r =>
      have hab : ¬(a = '/' ∧ b = '/') := by
        intro hc
        apply h
        rw [← hc.1]
        exact List.mem_cons_self _ _
      show adjSlashFree (a :: b :: r) = true
      unfold adjSlashFree
      rw [if_neg hab]
      exact ih (fun hm => h (List.mem_cons_of_mem _ hm))

/-- Prepending a slash to a slash-free list stays
consecutive-slash-free. -/
theorem adjSlashFree_slash_cons (t : List Char) (h : '/' ∉ t) :
    adjSlashFree ('/' :: t) = true := by
  cases t with
  | nil => rfl
  | cons b r =>
    have hab : ¬('/' = '/' ∧ b = '/') := by
      intro hc
      apply h
      rw [← hc.2]
      exact List.mem_cons_self _ _
    show adjSlashFree ('/' :: b :: r) = true
    unfold adjSlashFree
    rw [if_neg hab]
    exact adjSlashFree_of_not_mem (b :: r) h

/-- Joining a consecutive-slash-free directory (not ending in a slash)
with a slash and a slash-free tail is consecutive-slash-free. -/
theorem adjSlashFree_append (d t : List Char) (hd : adjSlashFree d = true)
    (hlast : d.getLast? ≠ some '/') (ht : '/' ∉ t) :
    adjSlashFree (d ++ '/' :: t) = true := by
  induction d with
  | nil => exact adjSlashFree_slash_cons t ht
  | cons a d ih =>
    cases d with
    | nil =>
      have ha : a ≠ '/' := by
        intro hac
        exact hlast (by rw [hac]; rfl)
      show adjSlashFree (a :: '/' :: t) = true
      unfold adjSlashFree
      rw [if_neg (fun hab => ha hab.1)]
      exact adjSlashFree_slash_cons t ht
    | cons b d2 =>
      have hab : ¬(a = '/' ∧ b = '/') := by
        intro hc
        unfold adjSlashFree at hd
        rw [if_pos hc] at hd
        exact Bool.false_ne_true hd
      have hd2 : adjSlashFree (b :: d2) = true := by
        unfold adjSlashFree at hd
        rwa [if_neg hab] at hd
      have hlast2 : (b :: d2).getLast? ≠ some '/' := by
        rwa [List.getLast?_cons_cons] at hlast
      show adjSlashFree (a :: ((b :: d2) ++ '/' :: t)) = true
      have hrest := ih hd2 hlast2
      show adjSlashFree (a :: b :: (d2 ++ '/' :: t)) = true
      unfold adjSlashFree
      rw [if_neg hab]
      exact hrest

/-- C9 (amended): for every input path of the form `d/s.png` — directory
part `d` non-empty, consecutive-slash-free, without dot characters and
not ending in a slash; stem `s` non-empty without slashes or dots — the
extension resolves to `.png`, the computed output path **equals the
input path** (the final trimmed RGBA image overwrites the original
file in place), and the only intermediate path is `d/s_keyed.png` in
the same directory. -/
theorem removeBackground_overwrites_input (p : String) (d s : List Char)
    (hp : p.data = d ++ '/' :: (s ++ ".png".data))
    (hd0 : d ≠ [])
    (hdDot : '.' ∉ d)
    (hdAdj : adjSlashFree d = true)
    (hdLast : d.getLast? ≠ some '/')
    (hs0 : s ≠ [])
    (hsSlash : '/' ∉ s)
    (hsDot : '.' ∉ s) :
    nodeExtname p = ".png" ∧
    removeBackgroundOutputPath p = p ∧
    (removeBackgroundTempPath p).data = d ++ '/' :: (s ++ "_keyed.png".data) := by
  have hpngSlash : '/' ∉ ".png".data := by decide
  have htailSlash : '/' ∉ s ++ ".png".data := by
    intro hm
    rcases List.mem_append.mp hm with h1 | h2
    · exact hsSlash h1
    · exact hpngSlash h2
  have hlastSlash : lastIdxOf '/' p.data = some d.length := by
    rw [hp]
    exact lastIdxOf_append_cons '/' d (s ++ ".png".data) htailSlash
  have hdir : jsDirOf p = String.mk d := by
    unfold jsDirOf
    rw [hlastSlash]
    dsimp only
    rw [hp, List.take_left]
  have hbase : afterLastSlash p.data = s ++ ".png".data := by
    unfold afterLastSlash
    rw [hlastSlash]
    dsimp only
    rw [hp]
    have hsplit : d ++ '/' :: (s ++ ".png".data) =
        (d ++ ['/']) ++ (s ++ ".png".data) := by simp
    have hlen : d.length + 1 = (d ++ ['/']).length := by simp
    rw [hsplit, hlen, List.drop_left]
  have hslen : 1 ≤ s.length := by
    cases s with
    | nil => exact absurd rfl hs0
    | cons a t => exact Nat.succ_le_succ (Nat.zero_le _)
  have hdotIdx : lastIdxOf '.' (s ++ ".png".data) = some s.length := by
    have hpng : '.' ∉ "png".data := by decide
    exact lastIdxOf_append_cons '.' s "png".data hpng
  have hext : nodeExtname p = ".png" := by
    unfold nodeExtname
    rw [hbase, hdotIdx]
    dsimp only
    rw [if_neg]
    · rw [List.drop_left]
    · rintro (h0 | hdd)
      · omega
      · have := congrArg List.length hdd
        simp at this
  have hnamecond : (".png".data.length < (s ++ ".png".data).length ∧
      (s ++ ".png".data).drop
        ((s ++ ".png".data).length - ".png".data.length) = ".png".data) := by
    constructor
    · simp
      omega
    · have : (s ++ ".png".data).length - ".png".data.length = s.length := by
        simp
      rw [this, List.drop_left]
  have hname : nodeBasename p (nodeExtname p) = String.mk s := by
    rw [hext]
    unfold nodeBasename
    rw [hbase]
    dsimp only
    rw [if_pos hnamecond]
    have : (s ++ ".png".data).length - ".png".data.length = s.length := by
      simp
    rw [this, List.take_left]
  have hmkd_ne : String.mk d ≠ "" := by
    intro hmk
    exact hd0 (congrArg String.data hmk)
  refine ⟨hext, ?_, ?_⟩
  · unfold removeBackgroundOutputPath
    rw [hdir, hname]
    have hbdata : (String.mk s ++ ".png").data = s ++ ".png".data := rfl
    have hb_ne : String.mk s ++ ".png" ≠ "" := by
      intro hmk
      have := congrArg String.data hmk
      rw [hbdata] at this
      cases s with
      | nil => exact hs0 rfl
      | cons a t => exact absurd this (by simp)
    unfold nodeJoin2
    rw [if_neg hmkd_ne, if_neg hb_ne]
    have hfree : adjSlashFree ((String.mk d).data ++ '/' ::
        (String.mk s ++ ".png").data) = true := by
      rw [hbdata]
      exact adjSlashFree_append d (s ++ ".png".data) hdAdj hdLast htailSlash
    rw [collapseSlashes_of_adjFree _ hfree]
    rw [hbdata]
    show String.mk (d ++ '/' :: (s ++ ".png".data)) = p
    rw [← hp]
  · unfold removeBackgroundTempPath
    rw [hdir, hname]
    have hbdata : (String.mk s ++ "_keyed.png").data =
        s ++ "_keyed.png".data := rfl
    have hkeyedSlash : '/' ∉ "_keyed.png".data := by decide
    have htail2 : '/' ∉ s ++ "_keyed.png".data := by
      intro hm
      rcases List.mem_append.mp hm with h1 | h2
      · exact hsSlash h1
      · exact hkeyedSlash h2
    have hb_ne : String.mk s ++ "_keyed.png" ≠ "" := by
      intro hmk
      have := congrArg String.data hmk
      rw [hbdata] at this
      cases s with
      | nil => exact hs0 rfl
      | cons a t => exact absurd this (by simp)
    unfold nodeJoin2
    rw [if_neg hmkd_ne, if_neg hb_ne]
    have hfree : adjSlashFree ((String.mk d).data ++ '/' ::
        (String.mk s ++ "_keyed.png").data) = true := by
      rw [hbdata]
      exact adjSlashFree_append d (s ++ "_keyed.png".data) hdAdj hdLast htail2
    rw [collapseSlashes_of_adjFree _ hfree]
    rw [hbdata]

/-- Witness for the amended C9 on the path `out/img.png`. -/
theorem removeBackground_overwrites_input_witness :
    nodeExtname "out/img.png" = ".png" ∧
    removeBackgroundOutputPath "out/img.png" = "out/img.png" ∧
    (removeBackgroundTempPath "out/img.png").data =
      ['o', 'u', 't'] ++ '/' :: (['i', 'm', 'g'] ++ "_keyed.png".data) :=
  removeBackground_overwrites_input "out/img.png" ['o', 'u', 't']
    ['i', 'm', 'g'] (by decide) (by decide) (by decide) (by decide)
    (by decide) (by decide) (by decide) (by decide)

/-- Counterexample to C9 as universally stated: the root-level input
`/a.png` has extension `.png`, yet the computed output path is `a.png`
(the directory part is the empty string, which `join` skips), **not**
the input path itself — the result does not overwrite `/a.png` in
place. -/
theorem removeBackground_root_path_moves :
    nodeExtname "/a.png" = ".png" ∧
    removeBackgroundOutputPath "/a.png" = "a.png" ∧
    removeBackgroundOutputPath "/a.png" ≠ "/a.png" := by
  refine ⟨by decide, by decide, by decide⟩

end NanoBanana
